import Mathlib

/-!
# Verification of `day_06` guard-path simulation (AdventOfCode_WIR)

Shallow embedding of `src/day_06/src/calculations.rs` and
`src/day_06/src/errors.rs`. The Rust `loop` in `count_guard_path` is
embedded as the fuel-indexed `runAux`; `none` means the fuel ran out
(the Rust loop has not yet returned after that many iterations), and
`∀ fuel, … = none` means the Rust loop never returns. The machine
arithmetic `(pos as i32 + delta) as usize` is embedded cast by cast:
`i32OfUsize` (usize→i32 truncation), `i32Wrap` (two's-complement wrap
of the 32-bit addition), `usizeOfInt` (i32→usize sign-extension,
i.e. reduction modulo `2^64`).
-/

namespace Day06

/-- `Direction` from calculations.rs. -/
inductive Direction where
  | up
  | right
  | down
  | left
deriving DecidableEq, Repr

/-- `Direction::turn_right`. -/
def Direction.turn_right : Direction → Direction
  | .up => .right
  | .right => .down
  | .down => .left
  | .left => .up

/-- `Direction::get_movement`: (row delta, col delta) as `i32` values. -/
def Direction.get_movement : Direction → Int × Int
  | .up => (-1, 0)
  | .right => (0, 1)
  | .down => (1, 0)
  | .left => (0, -1)

/-- `AppError` from errors.rs: exactly the four declared variants
(payloads dropped; they play no role in the verified claims). -/
inductive AppError where
  | IoError
  | ArgError
  | Array2CreationError
  | NoStartPosition
deriving DecidableEq, Repr

/-- The `ndarray::Array2<char>` grid: dimensions plus row-major cells. -/
structure Grid where
  rows : Nat
  cols : Nat
  cells : List Char
deriving DecidableEq, Repr

/-- Row-major read `grid[(r, c)]` (total; in-bounds use is established
separately by the safety theorems). -/
def Grid.get (g : Grid) (p : Nat × Nat) : Char :=
  g.cells.getD (p.1 * g.cols + p.2) ' '

/-- Row-major write `grid[(r, c)] = ch`. -/
def Grid.setc (g : Grid) (p : Nat × Nat) (ch : Char) : Grid :=
  { g with cells := g.cells.set (p.1 * g.cols + p.2) ch }

/-- The Rust cast `x as usize` of an `i32` value: sign-extend to 64
bits and reinterpret, i.e. wrap into `[0, 2^64)`. -/
def usizeOfInt (x : Int) : Nat := (x % (2 ^ 64 : Int)).toNat

/-- The Rust cast `n as i32` of a `usize` value: truncate to the low
32 bits and reinterpret them as a signed two's-complement value. -/
def i32OfUsize (n : Nat) : Int :=
  if n % 2 ^ 32 < 2 ^ 31 then ((n % 2 ^ 32 : Nat) : Int)
  else ((n % 2 ^ 32 : Nat) : Int) - 2 ^ 32

/-- 32-bit two's-complement wrap of an `i32` addition result (the
release-profile behaviour; a debug build would panic on overflow, and
the safety theorems' hypotheses put the sums in range so that neither
wrap nor panic is ever exercised). -/
def i32Wrap (x : Int) : Int := (x + 2 ^ 31) % 2 ^ 32 - 2 ^ 31

/-- `is_at_edge` from calculations.rs. -/
def is_at_edge (g : Grid) (p : Nat × Nat) : Bool :=
  p.1 == 0 || p.1 == g.rows - 1 || p.2 == 0 || p.2 == g.cols - 1

/-- `get_next_position` from calculations.rs: compute the forward
candidate `(pos as i32 + delta) as usize` coordinate-wise through the
full cast chain (usize→i32 truncation, wrapping i32 addition,
i32→usize sign-extension); if it is out of range or holds `'#'`, turn
right once and return that direction's candidate unconditionally. -/
def get_next_position (g : Grid) (p : Nat × Nat) (facing : Direction) :
    (Nat × Nat) × Direction :=
  let m := facing.get_movement
  let next_row := usizeOfInt (i32Wrap (i32OfUsize p.1 + m.1))
  let next_col := usizeOfInt (i32Wrap (i32OfUsize p.2 + m.2))
  if g.rows ≤ next_row ∨ g.cols ≤ next_col ∨ g.get (next_row, next_col) = '#' then
    let nd := facing.turn_right
    let m2 := nd.get_movement
    ((usizeOfInt (i32Wrap (i32OfUsize p.1 + m2.1)),
      usizeOfInt (i32Wrap (i32OfUsize p.2 + m2.2))), nd)
  else
    ((next_row, next_col), facing)

/-- The character-to-direction test performed cell by cell inside
`find_start_position`. -/
def start_dir (c : Char) : Option Direction :=
  if c = '^' then some .up
  else if c = '>' then some .right
  else if c = 'v' then some .down
  else if c = '<' then some .left
  else none

/-- The `grid.iter().enumerate()` scan of `find_start_position`:
first flat index holding a start marker, with its direction. -/
def findStartAux : List Char → Nat → Option (Nat × Direction)
  | [], _ => none
  | c :: rest, i =>
    match start_dir c with
    | some d => some (i, d)
    | none => findStartAux rest (i + 1)

/-- `find_start_position` from calculations.rs. -/
def find_start_position (g : Grid) : Option ((Nat × Nat) × Direction) :=
  (findStartAux g.cells 0).map (fun x => ((x.1 / g.cols, x.1 % g.cols), x.2))

/-- The mutable state of the `loop` in `count_guard_path`. -/
structure RunState where
  grid : Grid
  pos : Nat × Nat
  facing : Direction
  path_count : Nat
deriving DecidableEq, Repr

/-- The `loop` body of `count_guard_path`, iterated `fuel` times:
mark the current cell, return when standing on an edge cell, otherwise
step via `get_next_position`. `none` = the loop has not returned yet. -/
def runAux : Nat → Grid → Nat × Nat → Direction → Nat → Option RunState
  | 0, _, _, _, _ => none
  | fuel + 1, g, pos, facing, count =>
    let g2 := if g.get pos = '.' then g.setc pos 'X' else g
    let count2 := if g.get pos = '.' then count + 1 else count
    if is_at_edge g2 pos then some ⟨g2, pos, facing, count2⟩
    else
      let nx := get_next_position g2 pos facing
      runAux fuel g2 nx.1 nx.2 count2

/-- `count_guard_path` from calculations.rs, with fuel for its loop. -/
def count_guard_path (fuel : Nat) (g : Grid) : Option (Except AppError Nat) :=
  match find_start_position g with
  | none => some (Except.error AppError.NoStartPosition)
  | some sd =>
    let g2 := g.setc sd.1 'X'
    (runAux fuel g2 sd.1 sd.2 1).map (fun s => Except.ok s.path_count)

/-- `get_possible_obstructions` from calculations.rs: row-major scan
keeping positions that differ from the guard's and hold `'.'`. -/
def get_possible_obstructions (g : Grid) (guard_pos : Nat × Nat) :
    List (Nat × Nat) :=
  (List.range g.rows).flatMap (fun row =>
    (List.range g.cols).filterMap (fun col =>
      if (row, col) ≠ guard_pos ∧ g.get (row, col) = '.' then some (row, col)
      else none))

/-- The trial loop of `count_loop_obstructions`: place each obstruction,
rerun `count_guard_path`, count trials returning `Ok(n)` with `n > 0`;
an `Err` trial is skipped (`if let Ok`), an unfinished trial (fuel out,
i.e. a diverging inner loop) makes the whole computation unfinished. -/
def runTrials (fuel : Nat) (g : Grid) : List (Nat × Nat) → Nat → Option Nat
  | [], acc => some acc
  | obs :: rest, acc =>
    match count_guard_path fuel (g.setc obs '#') with
    | none => none
    | some (Except.ok n) => runTrials fuel g rest (if 0 < n then acc + 1 else acc)
    | some (Except.error _) => runTrials fuel g rest acc

/-- `count_loop_obstructions` from calculations.rs, with fuel for the
inner simulation loops. -/
def count_loop_obstructions (fuel : Nat) (g : Grid) : Option (Except AppError Nat) :=
  match find_start_position g with
  | none => some (Except.error AppError.NoStartPosition)
  | some sd =>
    (runTrials fuel g (get_possible_obstructions g sd.1) 0).map Except.ok

/-- The start-marker character of each direction (inverse of
`start_dir`, used to state claims about marker grids). -/
def dir_char : Direction → Char
  | .up => '^'
  | .right => '>'
  | .down => 'v'
  | .left => '<'

/-- The one-step displaced position of `p` in direction `d`, with the
Rust `(coord as i32 + delta) as usize` cast chain applied to each
coordinate (the "candidate" cell). -/
def step_cand (p : Nat × Nat) (d : Direction) : Nat × Nat :=
  (usizeOfInt (i32Wrap (i32OfUsize p.1 + d.get_movement.1)),
   usizeOfInt (i32Wrap (i32OfUsize p.2 + d.get_movement.2)))

/-! ## Concrete grids used in the claims -/

/-- A 5×5 grid on which the guard's walk cycles forever through the
interior ring (1,1)→(1,2)→(1,3)→(2,3)→(3,3)→(3,2)→(3,1)→(2,1)→(1,1):
`'#'` at (0,1), (1,4), (3,0), (4,3); start `'^'` at (1,1). -/
def gCycle : Grid :=
  ⟨5, 5,
   ['.', '#', '.', '.', '.',
    '.', '^', '.', '.', '#',
    '.', '.', '.', '.', '.',
    '#', '.', '.', '.', '.',
    '.', '.', '.', '#', '.']⟩

/-- `gCycle` after the pre-loop marking of the start cell. -/
def g1Cycle : Grid :=
  ⟨5, 5,
   ['.', '#', '.', '.', '.',
    '.', 'X', '.', '.', '#',
    '.', '.', '.', '.', '.',
    '#', '.', '.', '.', '.',
    '.', '.', '.', '#', '.']⟩

/-- `gCycle` once every cell of the interior ring is marked: the grid
is then a fixed point of the walk, which revisits the same eight
(position, direction) states forever. -/
def gXCycle : Grid :=
  ⟨5, 5,
   ['.', '#', '.', '.', '.',
    '.', 'X', 'X', 'X', '#',
    '.', 'X', '.', 'X', '.',
    '#', 'X', 'X', 'X', '.',
    '.', '.', '.', '#', '.']⟩

/-- The first lap: eight loop iterations take the freshly started walk
on `gCycle` to the fully marked ring with count 8, back at (1,1) `up`. -/
theorem runAux_gCycle_lap (n : Nat) :
    runAux (n + 8) g1Cycle (1, 1) Direction.up 1 =
      runAux n gXCycle (1, 1) Direction.up 8 := rfl

/-- The recurring lap: from the fully marked ring, eight further loop
iterations return to exactly the same loop state. -/
theorem runAux_gXCycle_period (n : Nat) :
    runAux (n + 8) gXCycle (1, 1) Direction.up 8 =
      runAux n gXCycle (1, 1) Direction.up 8 := rfl

/-- The walk on the marked ring never returns, whatever the fuel. -/
theorem runAux_gXCycle_none : ∀ n, runAux n gXCycle (1, 1) Direction.up 8 = none := by
  intro n
  induction n using Nat.strong_induction_on with
  | _ n ih =>
    match n with
    | 0 => rfl
    | 1 => rfl
    | 2 => rfl
    | 3 => rfl
    | 4 => rfl
    | 5 => rfl
    | 6 => rfl
    | 7 => rfl
    | m + 8 =>
      rw [runAux_gXCycle_period m]
      exact ih m (by omega)

/-- The loop of `count_guard_path` on `gCycle` never returns. -/
theorem runAux_gCycle_none : ∀ fuel, runAux fuel g1Cycle (1, 1) Direction.up 1 = none := by
  intro fuel
  match fuel with
  | 0 => rfl
  | 1 => rfl
  | 2 => rfl
  | 3 => rfl
  | 4 => rfl
  | 5 => rfl
  | 6 => rfl
  | 7 => rfl
  | m + 8 =>
    rw [runAux_gCycle_lap m]
    exact runAux_gXCycle_none m

/-- C1: the spec claims every run of the simulation terminates within
`rows*cols*4` direction-changes because each iteration terminates or
visits a new (position, direction) state. The code has no seen-state
set and only returns when the guard stands on an edge cell, so on
`gCycle` (5×5, obstacles at (0,1), (1,4), (3,0), (4,3), start `'^'` at
(1,1)) the loop revisits the same eight interior states forever: for
every fuel — in particular the claimed cap `5*5*4 = 100` — the loop
has not returned. -/
theorem count_guard_path_diverges_on_gCycle :
    ∀ fuel, count_guard_path fuel gCycle = none := by
  intro fuel
  show (runAux fuel g1Cycle (1, 1) Direction.up 1).map
      (fun s => Except.ok s.path_count) = none
  rw [runAux_gCycle_none fuel]
  rfl

/-- A 3×3 grid that is all `'.'` except the start marker `'^'` at the
centre (1,1). No obstruction placed on it can make the walk loop, yet
every trial is counted by `count_loop_obstructions`. -/
def gOpen3 : Grid :=
  ⟨3, 3,
   ['.', '.', '.',
    '.', '^', '.',
    '.', '.', '.']⟩

/-- C2: the spec claims a trial is counted iff its outcome is `Looped`.
The code counts a trial whenever `count_guard_path` returns `Ok(n)` with
`n > 0` — which holds for every terminating (i.e. exiting) trial. On
`gOpen3` all eight obstruction trials exit (each within the
`3*3*4 = 36`-iteration cap, so none loops), the unmodified run itself
exits with count 2, and yet the code reports 8 "loops" where the claim
demands 0. -/
theorem count_loop_obstructions_counts_exits :
    count_loop_obstructions 36 gOpen3 = some (Except.ok 8) ∧
    count_guard_path 36 gOpen3 = some (Except.ok 2) := ⟨rfl, rfl⟩

/-- A 3×3 all-open grid whose start marker `'>'` sits on the left edge
cell (1,0), facing the interior. -/
def gEdge3 : Grid :=
  ⟨3, 3,
   ['.', '.', '.',
    '>', '.', '.',
    '.', '.', '.']⟩

/-- `gEdge3` after the pre-loop marking of the start cell. -/
def g1Edge3 : Grid :=
  ⟨3, 3,
   ['.', '.', '.',
    'X', '.', '.',
    '.', '.', '.']⟩

/-- C3 counterexample: the claim says a run terminates exactly when the
candidate next position lies outside the grid, and that the agent keeps
stepping while candidates stay inside, even on an edge cell. On
`gEdge3` the agent starts on the edge cell (1,0) facing right; its
forward candidate (1,1) is strictly inside the grid and open, no turn
occurs, yet the run terminates immediately with count 1. -/
theorem count_guard_path_stops_at_edge_cex :
    count_guard_path 36 gEdge3 = some (Except.ok 1) ∧
    runAux 36 g1Edge3 (1, 0) Direction.right 1 =
      some ⟨g1Edge3, (1, 0), Direction.right, 1⟩ ∧
    get_next_position g1Edge3 (1, 0) Direction.right = ((1, 1), Direction.right) ∧
    g1Edge3.get (1, 1) = '.' ∧ (1 : Nat) < gEdge3.rows ∧ (1 : Nat) < gEdge3.cols :=
  ⟨rfl, rfl, rfl, rfl, by decide, by decide⟩

/-- One unfolding of the loop body of `count_guard_path`. -/
theorem runAux_succ (m : Nat) (g : Grid) (p : Nat × Nat) (d : Direction) (c : Nat) :
    runAux (m + 1) g p d c =
      if is_at_edge (if g.get p = '.' then g.setc p 'X' else g) p then
        some ⟨if g.get p = '.' then g.setc p 'X' else g, p, d,
              if g.get p = '.' then c + 1 else c⟩
      else
        runAux m (if g.get p = '.' then g.setc p 'X' else g)
          (get_next_position (if g.get p = '.' then g.setc p 'X' else g) p d).1
          (get_next_position (if g.get p = '.' then g.setc p 'X' else g) p d).2
          (if g.get p = '.' then c + 1 else c) := rfl

/-- Marking a cell leaves the grid's dimensions, hence `is_at_edge`,
unchanged. -/
theorem is_at_edge_setc (g : Grid) (p q : Nat × Nat) (ch : Char) :
    is_at_edge (g.setc p ch) q = is_at_edge g q := rfl

/-- C3 amended: a run terminates exactly when the agent's current
position lies on the grid's boundary (`is_at_edge`), checked before
stepping; whenever the loop returns, the final position is an edge
cell of the final grid. -/
theorem runAux_final_pos_at_edge :
    ∀ (n : Nat) (g : Grid) (p : Nat × Nat) (d : Direction) (c : Nat) (s : RunState),
      runAux n g p d c = some s → is_at_edge s.grid s.pos = true := by
  intro n
  induction n with
  | zero =>
    intro g p d c s h
    exact absurd h (by simp [runAux])
  | succ m ih =>
    intro g p d c s h
    rw [runAux_succ] at h
    split at h <;> split at h
    · rename_i hedge
      obtain rfl : _ = s := Option.some.inj h
      exact hedge
    · exact ih _ _ _ _ _ h
    · rename_i hedge
      obtain rfl : _ = s := Option.some.inj h
      exact hedge
    · exact ih _ _ _ _ _ h

/-- Witness for `runAux_final_pos_at_edge` at the concrete `gEdge3`
run, whose final state is back at the start cell (1,0). -/
theorem runAux_final_pos_at_edge_witness : is_at_edge g1Edge3 (1, 0) = true :=
  runAux_final_pos_at_edge 36 g1Edge3 (1, 0) Direction.right 1
    ⟨g1Edge3, (1, 0), Direction.right, 1⟩ rfl

/-- A 3×3 grid with `'^'` at the centre (1,1) and `'#'` both ahead of
it at (0,1) and to its right at (1,2): after the single right turn the
agent moves straight onto the blocked cell (1,2). -/
def gC4 : Grid :=
  ⟨3, 3,
   ['.', '#', '.',
    '.', '^', '#',
    '.', '.', '.']⟩

/-- `gC4` after the pre-loop marking of the start cell. -/
def g1C4 : Grid :=
  ⟨3, 3,
   ['.', '#', '.',
    '.', 'X', '#',
    '.', '.', '.']⟩

/-- C4 counterexample: the claim says a blocked candidate makes the
agent rotate repeatedly until the candidate is free, so its position is
never a blocked cell. On `gC4` the forward candidate (0,1) is `'#'`,
the agent turns right once and moves — without re-checking — onto
(1,2), which holds `'#'`: the run ends with the agent standing on a
blocked cell. -/
theorem agent_enters_blocked_cell_cex :
    runAux 36 g1C4 (1, 1) Direction.up 1 =
      some ⟨g1C4, (1, 2), Direction.right, 1⟩ ∧
    gC4.get (1, 2) = '#' ∧
    count_guard_path 36 gC4 = some (Except.ok 1) := ⟨rfl, rfl, rfl⟩

/-- C4 amended: on a blocked (or out-of-range) forward candidate the
agent rotates right exactly once and then moves unconditionally: the
direction returned by `get_next_position` is the facing direction or
its single right turn, and the returned position is always that
returned direction's one-step candidate — it is never re-checked, so
the agent can come to stand on a blocked cell. -/
theorem get_next_position_single_turn :
    ∀ (g : Grid) (p : Nat × Nat) (d : Direction),
      ((get_next_position g p d).2 = d ∨
        (get_next_position g p d).2 = d.turn_right) ∧
      (get_next_position g p d).1 = step_cand p (get_next_position g p d).2 := by
  intro g p d
  simp only [get_next_position, step_cand]
  split
  · exact ⟨Or.inr rfl, rfl⟩
  · exact ⟨Or.inl rfl, rfl⟩

/-- `start_dir` yields nothing exactly on non-marker characters. -/
theorem start_dir_eq_none (c : Char) :
    start_dir c = none ↔ (c ≠ '^' ∧ c ≠ '>' ∧ c ≠ 'v' ∧ c ≠ '<') := by
  unfold start_dir
  split_ifs with h1 h2 h3 h4 <;> simp_all

/-- The scan of `find_start_position` fails exactly when no cell is a
marker. -/
theorem findStartAux_eq_none :
    ∀ (l : List Char) (i : Nat),
      findStartAux l i = none ↔ ∀ c ∈ l, start_dir c = none := by
  intro l
  induction l with
  | nil => intro i; simp [findStartAux]
  | cons c rest ih =>
    intro i
    simp only [findStartAux]
    cases h : start_dir c with
    | some d => simp [h]
    | none => simp [h, ih]

/-- A successful simulation result is never an `error` value. -/
theorem map_ok_run_ne_error (o : Option RunState) (e : AppError) :
    o.map (fun s => Except.ok s.path_count) ≠ some (Except.error e) := by
  cases o <;> simp

/-- A successful obstruction count is never an `error` value. -/
theorem map_ok_nat_ne_error (o : Option Nat) (e : AppError) :
    o.map Except.ok ≠ some (Except.error e) := by
  cases o <;> simp

/-- C5: `find_start_position` returns `none` exactly when no cell holds
one of `^`, `>`, `v`, `<`; in exactly that case `count_guard_path` and
`count_loop_obstructions` fail with `AppError.NoStartPosition`, and
with a marker present neither ever produces that error. -/
theorem no_start_marker_characterisation :
    ∀ (g : Grid) (fuel : Nat),
      ((find_start_position g = none) ↔
        (∀ c ∈ g.cells, c ≠ '^' ∧ c ≠ '>' ∧ c ≠ 'v' ∧ c ≠ '<')) ∧
      ((count_guard_path fuel g = some (Except.error AppError.NoStartPosition)) ↔
        find_start_position g = none) ∧
      ((count_loop_obstructions fuel g = some (Except.error AppError.NoStartPosition)) ↔
        find_start_position g = none) := by
  intro g fuel
  refine ⟨?_, ?_, ?_⟩
  · unfold find_start_position
    rw [Option.map_eq_none', findStartAux_eq_none]
    constructor
    · intro h c hc
      exact (start_dir_eq_none c).mp (h c hc)
    · intro h c hc
      exact (start_dir_eq_none c).mpr (h c hc)
  · cases hf : find_start_position g with
    | none => simp [count_guard_path, hf]
    | some sd =>
      simp only [count_guard_path, hf]
      constructor
      · intro h
        exact absurd h (map_ok_run_ne_error _ _)
      · intro h
        exact absurd h (by simp)
  · cases hf : find_start_position g with
    | none => simp [count_loop_obstructions, hf]
    | some sd =>
      simp only [count_loop_obstructions, hf]
      constructor
      · intro h
        exact absurd h (map_ok_nat_ne_error _ _)
      · intro h
        exact absurd h (by simp)

/-- A 1×1 grid with no marker at all. -/
def gNoStart : Grid := ⟨1, 1, ['.']⟩

/-- Witness for `no_start_marker_characterisation` on the markerless
`gNoStart`. -/
theorem no_start_marker_characterisation_witness :
    count_guard_path 1 gNoStart = some (Except.error AppError.NoStartPosition) :=
  ((no_start_marker_characterisation gNoStart 1).2.1).mpr rfl

/-- The 4×4 grid of the repository's `test_possible_obstructions`:
`'#'` at (0,0), `'^'` at (1,1), every other cell `'.'`. -/
def gT4 : Grid :=
  ⟨4, 4,
   ['#', '.', '.', '.',
    '.', '^', '.', '.',
    '.', '.', '.', '.',
    '.', '.', '.', '.']⟩

/-- Membership in the obstruction-candidate list: exactly the in-bounds
positions that differ from the guard's and hold `'.'`. -/
theorem mem_get_possible_obstructions (g : Grid) (gp p : Nat × Nat) :
    p ∈ get_possible_obstructions g gp ↔
      (p.1 < g.rows ∧ p.2 < g.cols ∧ p ≠ gp ∧ g.get p = '.') := by
  unfold get_possible_obstructions
  simp only [List.mem_flatMap, List.mem_filterMap, List.mem_range]
  constructor
  · rintro ⟨r, hr, c, hc, hif⟩
    split_ifs at hif with hcond
    obtain rfl : (r, c) = p := Option.some.inj hif
    exact ⟨hr, hc, hcond.1, hcond.2⟩
  · rintro ⟨h1, h2, h3, h4⟩
    refine ⟨p.1, h1, p.2, h2, ?_⟩
    rw [if_pos ⟨by simpa using h3, by simpa using h4⟩]

/-- C6: the candidate set of `get_possible_obstructions` is exactly the
set of `'.'` cells other than the guard's position; on the 4×4 test
grid `gT4` it contains (1,2) and (2,1) and excludes the start (1,1)
and the pre-blocked (0,0). -/
theorem get_possible_obstructions_characterisation :
    (∀ (g : Grid) (gp p : Nat × Nat),
      p ∈ get_possible_obstructions g gp ↔
        (p.1 < g.rows ∧ p.2 < g.cols ∧ p ≠ gp ∧ g.get p = '.')) ∧
    ((1, 2) ∈ get_possible_obstructions gT4 (1, 1) ∧
     (2, 1) ∈ get_possible_obstructions gT4 (1, 1) ∧
     (1, 1) ∉ get_possible_obstructions gT4 (1, 1) ∧
     (0, 0) ∉ get_possible_obstructions gT4 (1, 1)) := by
  refine ⟨mem_get_possible_obstructions, by decide, by decide, by decide, by decide⟩

/-- Witness for `get_possible_obstructions_characterisation`: its
general part, instantiated on `gT4` at (1,2), certifies a concrete
membership. -/
theorem get_possible_obstructions_characterisation_witness :
    (1, 2) ∈ get_possible_obstructions gT4 (1, 1) :=
  (get_possible_obstructions_characterisation.1 gT4 (1, 1) (1, 2)).mpr
    ⟨by decide, by decide, by decide, by decide⟩

/-- C9 counterexample: the claim says placing an obstruction on an
already-blocked cell or on the start cell fails with a typed
`InvalidObstruction` error. The code's placement is a plain in-place
write: on `gT4` writing `'#'` at the already-blocked (0,0) silently
returns the unchanged grid, and writing `'#'` at the start cell (1,1)
silently returns an ordinary grid — no error value exists or is
produced (`AppError` has no such variant). -/
theorem obstruction_placement_never_fails_cex :
    gT4.setc (0, 0) '#' = gT4 ∧
    gT4.setc (1, 1) '#' =
      (⟨4, 4,
        ['#', '.', '.', '.',
         '.', '#', '.', '.',
         '.', '.', '.', '.',
         '.', '.', '.', '.']⟩ : Grid) := ⟨rfl, rfl⟩

/-- C9 amended: the code never attempts an invalid placement at all:
every position handed to the placement write by
`count_loop_obstructions` comes from `get_possible_obstructions`, whose
members are never the guard's cell and always hold `'.'` (so never
`'#'`); there is no `InvalidObstruction` error — exclusion happens by
enumeration, not by a failing placement. -/
theorem obstruction_candidates_prefiltered :
    ∀ (g : Grid) (gp p : Nat × Nat),
      p ∈ get_possible_obstructions g gp → p ≠ gp ∧ g.get p = '.' := by
  intro g gp p hp
  obtain ⟨-, -, h3, h4⟩ := (mem_get_possible_obstructions g gp p).mp hp
  exact ⟨h3, h4⟩

/-- Witness for `obstruction_candidates_prefiltered` at the concrete
candidate (1,2) of `gT4`. -/
theorem obstruction_candidates_prefiltered_witness :
    ((1, 2) : Nat × Nat) ≠ (1, 1) ∧ gT4.get (1, 2) = '.' :=
  obstruction_candidates_prefiltered gT4 (1, 1) (1, 2) (by decide)

/-- C7: on a 1×1 grid whose single cell is a start marker, facing any
of the four directions, the run returns at its very first iteration
(the cell is an edge cell on all sides) with a visited count of
exactly 1 — for every positive fuel. -/
theorem single_cell_grid_exits_immediately :
    ∀ (d : Direction) (fuel : Nat),
      count_guard_path (fuel + 1) ⟨1, 1, [dir_char d]⟩ = some (Except.ok 1) := by
  intro d fuel
  cases d <;> rfl

/-- The loop never decreases the path count. -/
theorem runAux_count_mono :
    ∀ (n : Nat) (g : Grid) (p : Nat × Nat) (d : Direction) (c : Nat) (s : RunState),
      runAux n g p d c = some s → c ≤ s.path_count := by
  intro n
  induction n with
  | zero =>
    intro g p d c s h
    exact absurd h (by simp [runAux])
  | succ m ih =>
    intro g p d c s h
    rw [runAux_succ] at h
    split at h <;> split at h
    · obtain rfl : _ = s := Option.some.inj h
      exact Nat.le_succ c
    · exact Nat.le_of_succ_le (ih _ _ _ _ _ h)
    · obtain rfl : _ = s := Option.some.inj h
      exact Nat.le_refl c
    · exact ih _ _ _ _ _ h

/-- C8: whenever `count_guard_path` returns successfully, its visited
count is at least 1 — the start cell is marked and counted before the
loop begins and the counter never decreases. -/
theorem count_guard_path_counts_start :
    ∀ (g : Grid) (fuel n : Nat),
      count_guard_path fuel g = some (Except.ok n) → 1 ≤ n := by
  intro g fuel n h
  cases hf : find_start_position g with
  | none => simp [count_guard_path, hf] at h
  | some sd =>
    simp only [count_guard_path, hf] at h
    obtain ⟨s, hs, hok⟩ := Option.map_eq_some'.mp h
    obtain rfl : s.path_count = n := by
      injection hok
    exact runAux_count_mono _ _ _ _ _ _ hs

/-- Witness for `count_guard_path_counts_start` on the concrete
`gOpen3` run, which returns with visited count 2. -/
theorem count_guard_path_counts_start_witness :
    count_guard_path 36 gOpen3 = some (Except.ok 2) ∧ 1 ≤ 2 :=
  ⟨rfl, count_guard_path_counts_start gOpen3 36 2 rfl⟩

/-- On a coordinate below `2^31` with a displaced value in
`[0, 2^31)`, the embedded cast chain computes the exact displaced
value: the truncation is the identity, the 32-bit addition neither
overflows (no debug panic) nor wraps, and the final cast is the plain
`toNat`. -/
theorem cast_chain_toNat (a : Nat) (δ : Int)
    (ha : a < 2 ^ 31) (hlow : 0 ≤ (a : Int) + δ)
    (hhigh : (a : Int) + δ < 2 ^ 31) :
    usizeOfInt (i32Wrap (i32OfUsize a + δ)) = ((a : Int) + δ).toNat := by
  have haa : a < 2 ^ 32 := Nat.lt_trans ha (by norm_num)
  have h1 : i32OfUsize a = (a : Int) := by
    simp only [i32OfUsize, Nat.mod_eq_of_lt haa, if_pos ha]
  rw [h1]
  have h2 : i32Wrap ((a : Int) + δ) = (a : Int) + δ := by
    unfold i32Wrap
    rw [Int.emod_eq_of_lt (add_nonneg hlow (by norm_num))
      (by have h31 : (2 : Int) ^ 31 + 2 ^ 31 = 2 ^ 32 := by norm_num
          linarith)]
    ring
  rw [h2]
  unfold usizeOfInt
  rw [Int.emod_eq_of_lt hlow
    (by have h64 : (2 : Int) ^ 31 < 2 ^ 64 := by norm_num
        linarith)]

/-- The cast chain's result stays below a dimension bound of at most
`2^31` when the displaced value does. -/
theorem cast_chain_lt (a : Nat) (δ : Int) (dim : Nat)
    (ha : a < 2 ^ 31) (hlow : 0 ≤ (a : Int) + δ)
    (hhigh : (a : Int) + δ < (dim : Int)) (hdim : dim ≤ 2 ^ 31) :
    usizeOfInt (i32Wrap (i32OfUsize a + δ)) < dim := by
  have hdim' : ((dim : Nat) : Int) ≤ (2 : Int) ^ 31 := by exact_mod_cast hdim
  rw [cast_chain_toNat a δ ha hlow (by linarith)]
  omega

/-- An in-bounds position that is not at an edge is strictly interior. -/
theorem interior_of_not_at_edge (g : Grid) (p : Nat × Nat)
    (h1 : p.1 < g.rows) (h2 : p.2 < g.cols) (he : is_at_edge g p = false) :
    1 ≤ p.1 ∧ p.1 + 1 < g.rows ∧ 1 ≤ p.2 ∧ p.2 + 1 < g.cols := by
  unfold is_at_edge at he
  simp only [Bool.or_eq_false_iff, beq_eq_false_iff_ne] at he
  omega

/-- From a strictly interior position of a grid with `i32`-sized
dimensions, one displaced step in any direction stays inside the grid
(no truncation, overflow or wrap can occur). -/
theorem step_cand_in_bounds (g : Grid) (p : Nat × Nat)
    (hrows : g.rows < 2 ^ 31) (hcols : g.cols < 2 ^ 31)
    (h1 : p.1 < g.rows) (h2 : p.2 < g.cols) (he : is_at_edge g p = false) :
    ∀ d : Direction, (step_cand p d).1 < g.rows ∧ (step_cand p d).2 < g.cols := by
  obtain ⟨ha, hb, hc, hd⟩ := interior_of_not_at_edge g p h1 h2 he
  have ha1 : p.1 < 2 ^ 31 := Nat.lt_trans h1 hrows
  have ha2 : p.2 < 2 ^ 31 := Nat.lt_trans h2 hcols
  have hr' : g.rows ≤ 2 ^ 31 := Nat.le_of_lt hrows
  have hc' : g.cols ≤ 2 ^ 31 := Nat.le_of_lt hcols
  intro d
  cases d with
  | up =>
    exact ⟨cast_chain_lt p.1 (-1) g.rows ha1 (by omega) (by omega) hr',
           cast_chain_lt p.2 0 g.cols ha2 (by omega) (by omega) hc'⟩
  | right =>
    exact ⟨cast_chain_lt p.1 0 g.rows ha1 (by omega) (by omega) hr',
           cast_chain_lt p.2 1 g.cols ha2 (by omega) (by omega) hc'⟩
  | down =>
    exact ⟨cast_chain_lt p.1 1 g.rows ha1 (by omega) (by omega) hr',
           cast_chain_lt p.2 0 g.cols ha2 (by omega) (by omega) hc'⟩
  | left =>
    exact ⟨cast_chain_lt p.1 0 g.rows ha1 (by omega) (by omega) hr',
           cast_chain_lt p.2 (-1) g.cols ha2 (by omega) (by omega) hc'⟩

/-- From a strictly interior position, `get_next_position` returns an
in-bounds position in either of its branches. -/
theorem get_next_position_in_bounds (g : Grid) (p : Nat × Nat) (d : Direction)
    (hrows : g.rows < 2 ^ 31) (hcols : g.cols < 2 ^ 31)
    (h1 : p.1 < g.rows) (h2 : p.2 < g.cols) (he : is_at_edge g p = false) :
    (get_next_position g p d).1.1 < g.rows ∧ (get_next_position g p d).1.2 < g.cols := by
  have H := step_cand_in_bounds g p hrows hcols h1 h2 he
  simp only [get_next_position]
  split
  · exact ⟨(H d.turn_right).1, (H d.turn_right).2⟩
  · exact ⟨(H d).1, (H d).2⟩

/-- The loop keeps the agent's position inside the grid: from an
in-bounds position, any returned final position is in bounds. -/
theorem runAux_pos_in_bounds :
    ∀ (n : Nat) (g : Grid) (p : Nat × Nat) (d : Direction) (c : Nat) (s : RunState),
      g.rows < 2 ^ 31 → g.cols < 2 ^ 31 → p.1 < g.rows → p.2 < g.cols →
      runAux n g p d c = some s → s.pos.1 < g.rows ∧ s.pos.2 < g.cols := by
  intro n
  induction n with
  | zero =>
    intro g p d c s _ _ _ _ h
    exact absurd h (by simp [runAux])
  | succ m ih =>
    intro g p d c s hr hc h1 h2 h
    rw [runAux_succ] at h
    split at h <;> split at h
    · obtain rfl : _ = s := Option.some.inj h
      exact ⟨h1, h2⟩
    · rename_i hdot hedge
      have hnb := get_next_position_in_bounds (g.setc p 'X') p d hr hc h1 h2
        (Bool.of_not_eq_true hedge)
      exact ih (g.setc p 'X') _ _ _ _ hr hc hnb.1 hnb.2 h
    · obtain rfl : _ = s := Option.some.inj h
      exact ⟨h1, h2⟩
    · rename_i hdot hedge
      have hnb := get_next_position_in_bounds g p d hr hc h1 h2
        (Bool.of_not_eq_true hedge)
      exact ih _ _ _ _ _ hr hc hnb.1 hnb.2 h

/-- The enumerated flat index of a found marker is below the cell
count. -/
theorem findStartAux_lt :
    ∀ (l : List Char) (i j : Nat) (d : Direction),
      findStartAux l i = some (j, d) → j < i + l.length := by
  intro l
  induction l with
  | nil =>
    intro i j d h
    exact absurd h (by simp [findStartAux])
  | cons c rest ih =>
    intro i j d h
    simp only [findStartAux] at h
    cases hsd : start_dir c with
    | some d0 =>
      rw [hsd] at h
      obtain ⟨rfl, rfl⟩ := Prod.mk.injEq .. ▸ Option.some.inj h
      simp
    | none =>
      rw [hsd] at h
      have := ih (i + 1) j d h
      simp only [List.length_cons]
      omega

/-- On a rectangular grid, a found start position is in bounds. -/
theorem find_start_in_bounds (g : Grid)
    (hrect : g.cells.length = g.rows * g.cols)
    (s : Nat × Nat) (d : Direction)
    (h : find_start_position g = some (s, d)) :
    s.1 < g.rows ∧ s.2 < g.cols := by
  unfold find_start_position at h
  obtain ⟨⟨j, d0⟩, hj, heq⟩ := Option.map_eq_some'.mp h
  obtain ⟨rfl, rfl⟩ : (j / g.cols, j % g.cols) = s ∧ d0 = d := by
    simpa using heq
  have hjl := findStartAux_lt g.cells 0 j d0 hj
  have hlt : j < g.rows * g.cols := by omega
  have hc0 : 0 < g.cols := by
    rcases Nat.eq_zero_or_pos g.cols with h0 | h0
    · rw [h0, Nat.mul_zero] at hlt
      omega
    · exact h0
  exact ⟨(Nat.div_lt_iff_lt_mul hc0).mpr hlt, Nat.mod_lt _ hc0⟩

/-- C10: index safety of `count_guard_path` on rectangular grids whose
dimensions fit in `i32` (below `2^31`, which any grid the program can
index does): a found start position is in bounds; from any in-bounds
non-edge position neither the forward nor the post-turn displacement
goes negative, the `(pos as i32 + d) as usize` cast chain computes each
candidate coordinate exactly (no `usize`→`i32` truncation loss, no
`i32` overflow panic or wrap, no `usize` wraparound), and the position
returned by `get_next_position` is in bounds; and the loop keeps the
agent's position in bounds until it returns. -/
theorem count_guard_path_index_safety :
    ∀ (g : Grid) (p : Nat × Nat) (d : Direction),
      g.rows < 2 ^ 31 → g.cols < 2 ^ 31 →
      (g.cells.length = g.rows * g.cols →
        ∀ (s : Nat × Nat) (d0 : Direction),
          find_start_position g = some (s, d0) → s.1 < g.rows ∧ s.2 < g.cols) ∧
      (p.1 < g.rows → p.2 < g.cols → is_at_edge g p = false →
        (0 ≤ (p.1 : Int) + d.get_movement.1 ∧
         0 ≤ (p.2 : Int) + d.get_movement.2 ∧
         0 ≤ (p.1 : Int) + d.turn_right.get_movement.1 ∧
         0 ≤ (p.2 : Int) + d.turn_right.get_movement.2) ∧
        (∀ d' : Direction,
          step_cand p d' = (((p.1 : Int) + d'.get_movement.1).toNat,
                            ((p.2 : Int) + d'.get_movement.2).toNat)) ∧
        ((get_next_position g p d).1.1 < g.rows ∧
         (get_next_position g p d).1.2 < g.cols)) ∧
      (∀ (c n : Nat) (s : RunState),
        p.1 < g.rows → p.2 < g.cols → runAux n g p d c = some s →
        s.pos.1 < g.rows ∧ s.pos.2 < g.cols) := by
  intro g p d hr hc
  refine ⟨fun hrect s d0 h => find_start_in_bounds g hrect s d0 h, ?_, ?_⟩
  · intro h1 h2 he
    obtain ⟨ha, hb, hcc, hd⟩ := interior_of_not_at_edge g p h1 h2 he
    have ha1 : p.1 < 2 ^ 31 := Nat.lt_trans h1 hr
    have ha2 : p.2 < 2 ^ 31 := Nat.lt_trans h2 hc
    have hexact : ∀ d' : Direction,
        step_cand p d' = (((p.1 : Int) + d'.get_movement.1).toNat,
                          ((p.2 : Int) + d'.get_movement.2).toNat) := by
      intro d'
      have hr31 : ((g.rows : Nat) : Int) ≤ (2 : Int) ^ 31 := by
        exact_mod_cast Nat.le_of_lt hr
      have hc31 : ((g.cols : Nat) : Int) ≤ (2 : Int) ^ 31 := by
        exact_mod_cast Nat.le_of_lt hc
      have h1i : ((p.1 : Nat) : Int) < (g.rows : Int) := by exact_mod_cast h1
      have h2i : ((p.2 : Nat) : Int) < (g.cols : Int) := by exact_mod_cast h2
      have hbi : ((p.1 : Nat) : Int) + 1 < (g.rows : Int) := by exact_mod_cast hb
      have hdi : ((p.2 : Nat) : Int) + 1 < (g.cols : Int) := by exact_mod_cast hd
      unfold step_cand
      cases d' with
      | up =>
        simp only [Direction.get_movement]
        rw [cast_chain_toNat p.1 (-1) ha1 (by omega) (by linarith),
            cast_chain_toNat p.2 0 ha2 (by omega) (by linarith)]
      | right =>
        simp only [Direction.get_movement]
        rw [cast_chain_toNat p.1 0 ha1 (by omega) (by linarith),
            cast_chain_toNat p.2 1 ha2 (by omega) (by linarith)]
      | down =>
        simp only [Direction.get_movement]
        rw [cast_chain_toNat p.1 1 ha1 (by omega) (by linarith),
            cast_chain_toNat p.2 0 ha2 (by omega) (by linarith)]
      | left =>
        simp only [Direction.get_movement]
        rw [cast_chain_toNat p.1 0 ha1 (by omega) (by linarith),
            cast_chain_toNat p.2 (-1) ha2 (by omega) (by linarith)]
    refine ⟨?_, hexact, get_next_position_in_bounds g p d hr hc h1 h2 he⟩
    constructor
    · cases d with
      | up => exact show (0 : Int) ≤ (p.1 : Int) + (-1) by omega
      | right => exact show (0 : Int) ≤ (p.1 : Int) + 0 by omega
      | down => exact show (0 : Int) ≤ (p.1 : Int) + 1 by omega
      | left => exact show (0 : Int) ≤ (p.1 : Int) + 0 by omega
    constructor
    · cases d with
      | up => exact show (0 : Int) ≤ (p.2 : Int) + 0 by omega
      | right => exact show (0 : Int) ≤ (p.2 : Int) + 1 by omega
      | down => exact show (0 : Int) ≤ (p.2 : Int) + 0 by omega
      | left => exact show (0 : Int) ≤ (p.2 : Int) + (-1) by omega
    constructor
    · cases d with
      | up => exact show (0 : Int) ≤ (p.1 : Int) + 0 by omega
      | right => exact show (0 : Int) ≤ (p.1 : Int) + 1 by omega
      | down => exact show (0 : Int) ≤ (p.1 : Int) + 0 by omega
      | left => exact show (0 : Int) ≤ (p.1 : Int) + (-1) by omega
    · cases d with
      | up => exact show (0 : Int) ≤ (p.2 : Int) + 1 by omega
      | right => exact show (0 : Int) ≤ (p.2 : Int) + 0 by omega
      | down => exact show (0 : Int) ≤ (p.2 : Int) + (-1) by omega
      | left => exact show (0 : Int) ≤ (p.2 : Int) + 0 by omega
  · intro c n s h1 h2 h
    exact runAux_pos_in_bounds n g p d c s hr hc h1 h2 h

/-- Witness for `count_guard_path_index_safety` on `gT4` at the
interior position (1,1) facing up. -/
theorem count_guard_path_index_safety_witness :
    (get_next_position gT4 (1, 1) Direction.up).1.1 < gT4.rows ∧
    (get_next_position gT4 (1, 1) Direction.up).1.2 < gT4.cols :=
  ((count_guard_path_index_safety gT4 (1, 1) Direction.up
      (by decide) (by decide)).2.1 (by decide) (by decide) rfl).2.2

end Day06
